import Mathlib

/-!
Verification of the UDML translator core (`backend/udml/translator.py`):
the unified instruction/program data model, the vendor-mapping translation
layer, the peephole optimizer and the complexity analyzer, embedded as
executable Lean definitions, together with theorems about them.

Python dictionaries are embedded as insertion-ordered association lists;
heterogeneous dictionary values (`Dict[str, Any]`) as the `MetaVal` sum;
code that can raise an exception returns `Option` / `Except`.
-/

namespace UDML

/-- Unified instruction opcodes (`UDMLOpcode` enum in the source). -/
inductive UDMLOpcode
  | LOAD | STORE | MOVE
  | AND | OR | XOR | NOT
  | EQ | NE | GT | LT | GE | LE
  | ADD | SUB | MUL | DIV | MOD
  | TON | TOF | TP | CTU | CTD | CTUD
  | CALL | RET | JMP | JZ | JNZ
  | NOP | SET | RESET
  deriving DecidableEq

/-- The `.value` string of an opcode (Python enum member value). -/
def opcodeValue : UDMLOpcode → String
  | .LOAD => "LOAD" | .STORE => "STORE" | .MOVE => "MOVE"
  | .AND => "AND" | .OR => "OR" | .XOR => "XOR" | .NOT => "NOT"
  | .EQ => "EQ" | .NE => "NE" | .GT => "GT" | .LT => "LT" | .GE => "GE" | .LE => "LE"
  | .ADD => "ADD" | .SUB => "SUB" | .MUL => "MUL" | .DIV => "DIV" | .MOD => "MOD"
  | .TON => "TON" | .TOF => "TOF" | .TP => "TP" | .CTU => "CTU" | .CTD => "CTD" | .CTUD => "CTUD"
  | .CALL => "CALL" | .RET => "RET" | .JMP => "JMP" | .JZ => "JZ" | .JNZ => "JNZ"
  | .NOP => "NOP" | .SET => "SET" | .RESET => "RESET"

/-- A value stored in a `metadata` / `global_variables` dictionary
(`Dict[str, Any]` in the source holds booleans and strings here). -/
inductive MetaVal
  | bool (b : Bool)
  | str (s : String)
  deriving DecidableEq

/-- Dataclass `UDMLInstruction`: one unified-IR instruction. -/
structure UDMLInstruction where
  opcode : UDMLOpcode
  operands : List String
  source_vendor : String
  source_instruction : String
  address : Int
  metadata : List (String × MetaVal)
  comment : Option String
  deriving DecidableEq

/-- Dataclass `UDMLProgram`: complete UDML program representation. -/
structure UDMLProgram where
  program_name : String
  source_vendor : String
  instructions : List UDMLInstruction
  global_variables : List (String × MetaVal)
  functions : List (List (String × MetaVal))
  metadata : List (String × MetaVal)
  deriving DecidableEq

/-- Input record produced by a vendor parser (§6 input contract): a missing
address defaults to 0 and a missing operand list to empty, so the fields are
modelled as always present. -/
structure VendorInstruction where
  mnemonic : String
  operands : List String
  address : Int
  comment : Option String
  deriving DecidableEq

/-- Table `UDMLTranslator.SIEMENS_MAPPING`. -/
def SIEMENS_MAPPING : List (String × UDMLOpcode) :=
  [("A", .AND), ("AN", .AND), ("O", .OR), ("ON", .OR), ("X", .XOR),
   ("=", .STORE), ("L", .LOAD), ("T", .STORE), ("S", .SET), ("R", .RESET),
   ("+I", .ADD), ("-I", .SUB), ("*I", .MUL), ("/I", .DIV),
   ("==I", .EQ), ("<>I", .NE), (">I", .GT), ("<I", .LT), ("CALL", .CALL)]

/-- Table `UDMLTranslator.MITSUBISHI_MAPPING`. -/
def MITSUBISHI_MAPPING : List (String × UDMLOpcode) :=
  [("LD", .LOAD), ("LDI", .LOAD), ("OUT", .STORE), ("AND", .AND), ("ANI", .AND),
   ("OR", .OR), ("ORI", .OR), ("SET", .SET), ("RST", .RESET), ("MOV", .MOVE),
   ("ADD", .ADD), ("SUB", .SUB), ("MUL", .MUL), ("DIV", .DIV)]

/-- Table `UDMLTranslator.ROCKWELL_MAPPING`. -/
def ROCKWELL_MAPPING : List (String × UDMLOpcode) :=
  [("XIC", .LOAD), ("XIO", .LOAD), ("OTE", .STORE), ("OTL", .SET), ("OTU", .RESET),
   ("TON", .TON), ("TOF", .TOF), ("CTU", .CTU), ("CTD", .CTD),
   ("ADD", .ADD), ("SUB", .SUB), ("MUL", .MUL), ("DIV", .DIV),
   ("EQU", .EQ), ("NEQ", .NE), ("GRT", .GT), ("LES", .LT), ("JSR", .CALL)]

/-- Table `UDMLTranslator.LS_MAPPING`. -/
def LS_MAPPING : List (String × UDMLOpcode) :=
  [("LD", .LOAD), ("OUT", .STORE), ("AND", .AND), ("OR", .OR),
   ("SET", .SET), ("RST", .RESET), ("MOV", .MOVE), ("ADD", .ADD), ("SUB", .SUB)]

/-- Table `UDMLTranslator.OMRON_MAPPING`. -/
def OMRON_MAPPING : List (String × UDMLOpcode) :=
  [("LD", .LOAD), ("OUT", .STORE), ("AND", .AND), ("OR", .OR),
   ("SET", .SET), ("RSET", .RESET), ("MOV", .MOVE), ("ADD", .ADD), ("SUB", .SUB)]

/-- Registry `self.vendor_mappings` built in `UDMLTranslator.__init__`. -/
def vendorMappings : List (String × List (String × UDMLOpcode)) :=
  [("siemens", SIEMENS_MAPPING), ("mitsubishi", MITSUBISHI_MAPPING),
   ("rockwell", ROCKWELL_MAPPING), ("ls", LS_MAPPING), ("omron", OMRON_MAPPING)]

/-- Method `UDMLTranslator._translate_instruction`: translate a single instruction.
An unmapped mnemonic degrades to a marked `NOP`; a mapped one keeps its
operands and gets `negated = true` when the mnemonic is `AN`, `ANI` or `XIO`. -/
def translate_instruction (vendor : String) (mapping : List (String × UDMLOpcode))
    (inst : VendorInstruction) : UDMLInstruction :=
  match mapping.lookup inst.mnemonic with
  | none =>
      { opcode := .NOP
        operands := []
        source_vendor := vendor
        source_instruction := inst.mnemonic
        address := inst.address
        metadata := [("warning", MetaVal.str "unmapped_instruction")]
        comment := some ("Unknown: " ++ inst.mnemonic) }
  | some opcode =>
      { opcode := opcode
        operands := inst.operands
        source_vendor := vendor
        source_instruction := inst.mnemonic
        address := inst.address
        metadata :=
          if inst.mnemonic ∈ ["AN", "ANI", "XIO"] then [("negated", MetaVal.bool true)]
          else []
        comment := inst.comment }

/-- Embedding of Python's `str.lower()`: lower each character (the vendor
names involved are ASCII). Defined on the character list so that it reduces
by evaluation. -/
def strLower (s : String) : String := String.mk (s.data.map Char.toLower)

/-- The `metadata` field `translate` puts on the resulting program. -/
def translationMetadata : List (String × MetaVal) :=
  [("translation_date", MetaVal.str "2024-01-01"),
   ("translator_version", MetaVal.str "1.0.0")]

/-- Method `UDMLTranslator.translate`: raises `ValueError` (modelled as
`Except.error`) when the lower-cased vendor has no registered mapping,
otherwise translates every instruction in order. (`_translate_instruction`
always returns a truthy instruction object, so every input contributes
exactly one output.) -/
def translate (vendor : String) (instructions : List VendorInstruction) :
    Except String UDMLProgram :=
  match vendorMappings.lookup (strLower vendor) with
  | none => .error ("Unsupported vendor: " ++ vendor)
  | some mapping =>
      .ok { program_name := vendor ++ "_program"
            source_vendor := vendor
            instructions :=
              instructions.map (translate_instruction (strLower vendor) mapping)
            global_variables := []
            functions := []
            metadata := translationMetadata }

/-- The fused `MOVE` instruction built by the LOAD+STORE rule in
`UDMLTranslator.optimize`; `a` is `inst.operands[0]` of the LOAD, `b` is
`operands[0]` of the STORE. -/
def mkMove (inst : UDMLInstruction) (a b : String) : UDMLInstruction :=
  { opcode := .MOVE
    operands := [a, b]
    source_vendor := inst.source_vendor
    source_instruction := "OPTIMIZED"
    address := inst.address
    metadata := [("optimized", MetaVal.bool true)]
    comment := some "Combined LOAD+STORE" }

/-- The `while` loop of `UDMLTranslator.optimize` over the original
instruction list: skip `NOP`s; fuse a `LOAD` strictly followed by a `STORE`
into a `MOVE` (advancing by two); copy everything else. The fusion rule
reads `operands[0]` of both instructions, which raises `IndexError`
(modelled as `none`) when either operand list is empty. -/
def optGo : List UDMLInstruction → Option (List UDMLInstruction)
  | [] => some []
  | [inst] => if inst.opcode = UDMLOpcode.NOP then some [] else some [inst]
  | inst :: next :: rest =>
      if inst.opcode = UDMLOpcode.NOP then optGo (next :: rest)
      else if inst.opcode = UDMLOpcode.LOAD ∧ next.opcode = UDMLOpcode.STORE then
        match inst.operands, next.operands with
        | a :: _, b :: _ => (optGo rest).map (fun t => mkMove inst a b :: t)
        | _, _ => none
      else (optGo (next :: rest)).map (fun t => inst :: t)

/-- Method `UDMLTranslator.optimize`: replaces the program's instruction list with
the optimized one, all other fields untouched. -/
def optimize (program : UDMLProgram) : Option UDMLProgram :=
  (optGo program.instructions).map (fun l => { program with instructions := l })

/-- Record `ComplexityReport`: the dictionary returned by `analyze_complexity`. -/
structure ComplexityReport where
  total_instructions : Nat
  opcode_distribution : List (String × Nat)
  cyclomatic_complexity : Nat
  max_nesting_depth : Nat
  deriving DecidableEq

/-- One step of building `opcode_counts`: Python's
`counts[key] = counts.get(key, 0) + 1` on an insertion-ordered dict. -/
def bumpCount (counts : List (String × Nat)) (key : String) : List (String × Nat) :=
  if counts.any (fun p => p.1 == key) then
    counts.map (fun p => if p.1 == key then (p.1, p.2 + 1) else p)
  else counts ++ [(key, 1)]

/-- Method `UDMLTranslator._calculate_cyclomatic_complexity`: decision points
(`JZ`, `JNZ`, `CALL`) counted by a running sum, plus one. -/
def calculate_cyclomatic_complexity (program : UDMLProgram) : Nat :=
  (program.instructions.foldl
    (fun acc inst =>
      if inst.opcode ∈ [UDMLOpcode.JZ, UDMLOpcode.JNZ, UDMLOpcode.CALL] then acc + 1
      else acc) 0) + 1

/-- The loop of `UDMLTranslator._calculate_nesting_depth`: `cur` is
`current_depth`, `maxD` is `max_depth`; `RET` decrements floored at 0
(`max(0, current_depth - 1)`, which is truncated subtraction on `Nat`). -/
def nestingGo : List UDMLInstruction → Nat → Nat → Nat
  | [], _, maxD => maxD
  | inst :: rest, cur, maxD =>
      if inst.opcode = UDMLOpcode.CALL then
        nestingGo rest (cur + 1) (max maxD (cur + 1))
      else if inst.opcode = UDMLOpcode.RET then
        nestingGo rest (cur - 1) maxD
      else nestingGo rest cur maxD

/-- Method `UDMLTranslator._calculate_nesting_depth`. -/
def calculate_nesting_depth (program : UDMLProgram) : Nat :=
  nestingGo program.instructions 0 0

/-- Method `UDMLTranslator.analyze_complexity`. -/
def analyze_complexity (program : UDMLProgram) : ComplexityReport :=
  { total_instructions := program.instructions.length
    opcode_distribution :=
      program.instructions.foldl (fun acc inst => bumpCount acc (opcodeValue inst.opcode)) []
    cyclomatic_complexity := calculate_cyclomatic_complexity program
    max_nesting_depth := calculate_nesting_depth program }

/-! Specification-side vocabulary used by the claim statements. -/

/-- The per-vendor negated-mnemonic set named by the spec (Siemens `AN`,
Mitsubishi `ANI`, Rockwell `XIO`; the other vendors have none). -/
def negatedMnemonics (vendor : String) : List String :=
  if vendor = "siemens" then ["AN"]
  else if vendor = "mitsubishi" then ["ANI"]
  else if vendor = "rockwell" then ["XIO"]
  else []

/-- Maximum-nesting-depth as the spec words it: the running maximum, over one
left-to-right scan, of a counter that increments on `CALL` and decrements
(floored at 0) on `RET`; `d` is the counter value entering the scan. -/
def specMaxDepth : List UDMLInstruction → Nat → Nat
  | [], _ => 0
  | inst :: rest, d =>
      let d' :=
        if inst.opcode = UDMLOpcode.CALL then d + 1
        else if inst.opcode = UDMLOpcode.RET then d - 1
        else d
      max d' (specMaxDepth rest d')

/-- No `LOAD` instruction is immediately followed by a `STORE` instruction. -/
def noLS : List UDMLInstruction → Prop
  | x :: y :: t =>
      ¬(x.opcode = UDMLOpcode.LOAD ∧ y.opcode = UDMLOpcode.STORE) ∧ noLS (y :: t)
  | _ => True

/-! Concrete instruction sequences used as test vectors. -/

/-- A bare instruction with the given opcode, operands and address. -/
def bareInst (op : UDMLOpcode) (ops : List String) (addr : Int) : UDMLInstruction :=
  { opcode := op, operands := ops, source_vendor := "siemens",
    source_instruction := "SRC", address := addr, metadata := [], comment := none }

/-- A program around the given instruction list. -/
def bareProg (insts : List UDMLInstruction) : UDMLProgram :=
  { program_name := "p", source_vendor := "siemens", instructions := insts,
    global_variables := [], functions := [], metadata := [] }

/-- Program `[LOAD a, NOP, STORE b]`: the LOAD and STORE are separated by a NOP. -/
def progNopBetween : UDMLProgram :=
  bareProg [bareInst .LOAD ["a"] 0, bareInst .NOP [] 1, bareInst .STORE ["b"] 2]

/-- Program `[LOAD, STORE]` where both operand lists are empty: fusion fires and
reads `operands[0]` of both. -/
def progEmptyOperands : UDMLProgram :=
  bareProg [bareInst .LOAD [] 0, bareInst .STORE [] 1]

/-- A NOP-free program: `[LOAD a, AND x, STORE b]`. -/
def progNopFree : UDMLProgram :=
  bareProg [bareInst .LOAD ["a"] 0, bareInst .AND ["x"] 1, bareInst .STORE ["b"] 2]

/-- Program with 2 `CALL`, 1 `JZ` and one unrelated `ADD` instruction. -/
def progTwoCallsOneJz : UDMLProgram :=
  bareProg [bareInst .CALL ["F1"] 0, bareInst .ADD ["x"] 1,
            bareInst .CALL ["F2"] 2, bareInst .JZ ["L1"] 3]

/-- The opcode sequence `[CALL, CALL, RET, CALL, RET, RET]`. -/
def progNesting : UDMLProgram :=
  bareProg [bareInst .CALL ["F1"] 0, bareInst .CALL ["F2"] 1, bareInst .RET [] 2,
            bareInst .CALL ["F3"] 3, bareInst .RET [] 4, bareInst .RET [] 5]

/-- A program with no instructions at all. -/
def progEmpty : UDMLProgram := bareProg []

/-! Helper lemmas. -/

/-- Two-step list induction matching the recursion pattern of `optGo`. -/
theorem ind2 {α : Type} {P : List α → Prop} (h0 : P []) (h1 : ∀ x, P [x])
    (h2 : ∀ x y t, P t → P (y :: t) → P (x :: y :: t)) : ∀ l, P l := by
  have key : ∀ l : List α, P l ∧ ∀ x, P (x :: l) := by
    intro l
    induction l with
    | nil => exact ⟨h0, h1⟩
    | cons y t ih => exact ⟨ih.2 y, fun x => h2 x y t ih.1 (ih.2 y)⟩
  exact fun l => (key l).1

/-- A successful association-list lookup exhibits a member of the list. -/
theorem lookup_mem {β : Type} :
    ∀ (l : List (String × β)) (k : String) (v : β), l.lookup k = some v → (k, v) ∈ l := by
  intro l
  induction l with
  | nil => intro k v h; simp [List.lookup] at h
  | cons p t ih =>
    intro k v h
    cases p with
    | mk pk pv =>
      rw [List.lookup] at h
      by_cases hk : (k == pk) = true
      · rw [hk] at h
        simp only [Option.some.injEq] at h
        subst h
        exact List.mem_cons.mpr (Or.inl (by rw [beq_iff_eq] at hk; rw [hk]))
      · rw [Bool.not_eq_true] at hk
        rw [hk] at h
        exact List.mem_cons.mpr (Or.inr (ih k v h))

/-- An association-list lookup succeeds exactly on the list's keys. -/
theorem lookup_isSome_iff {β : Type} :
    ∀ (l : List (String × β)) (k : String),
      (l.lookup k).isSome = true ↔ k ∈ l.map Prod.fst := by
  intro l
  induction l with
  | nil => intro k; simp [List.lookup]
  | cons p t ih =>
    intro k
    cases p with
    | mk pk pv =>
      rw [List.lookup]
      by_cases hk : (k == pk) = true
      · rw [hk]
        simp only [Option.isSome_some, List.map_cons, List.mem_cons, true_iff]
        exact Or.inl (by rw [beq_iff_eq] at hk; exact hk)
      · rw [Bool.not_eq_true] at hk
        rw [hk]
        simp only [List.map_cons, List.mem_cons]
        rw [ih k]
        constructor
        · exact Or.inr
        · rintro (h | h)
          · subst h
            simp at hk
          · exact h

/-- The instruction emitted by `optGo` in place of an input instruction is
never a `NOP`: NOPs are dropped and the fused instruction is a `MOVE`. -/
theorem optGo_ne_nop :
    ∀ l m, optGo l = some m → ∀ i ∈ m, i.opcode ≠ UDMLOpcode.NOP := by
  refine ind2 ?_ ?_ ?_
  · intro m hm i hi
    simp only [optGo, Option.some.injEq] at hm
    subst hm
    simp at hi
  · intro x m hm i hi
    by_cases hx : x.opcode = UDMLOpcode.NOP
    · simp only [optGo, if_pos hx, Option.some.injEq] at hm
      subst hm
      simp at hi
    · simp only [optGo, if_neg hx, Option.some.injEq] at hm
      subst hm
      simp only [List.mem_singleton] at hi
      subst hi
      exact hx
  · intro x y t iht ihyt m hm i hi
    by_cases hx : x.opcode = UDMLOpcode.NOP
    · rw [optGo, if_pos hx] at hm
      exact ihyt m hm i hi
    · by_cases hf : x.opcode = UDMLOpcode.LOAD ∧ y.opcode = UDMLOpcode.STORE
      · rcases hxo : x.operands with _ | ⟨a, ra⟩
        · simp [optGo, if_neg hx, hf, hxo] at hm
        · rcases hyo : y.operands with _ | ⟨b, rb⟩
          · simp [optGo, if_neg hx, hf, hxo, hyo] at hm
          · rw [optGo, if_neg hx, if_pos hf, hxo, hyo] at hm
            simp only [Option.map_eq_some'] at hm
            obtain ⟨t', ht', rfl⟩ := hm
            rcases List.mem_cons.mp hi with rfl | hi'
            · simp [mkMove]
            · exact iht t' ht' i hi'
      · rw [optGo, if_neg hx, if_neg hf] at hm
        simp only [Option.map_eq_some'] at hm
        obtain ⟨t', ht', rfl⟩ := hm
        rcases List.mem_cons.mp hi with rfl | hi'
        · exact hx
        · exact ihyt t' ht' i hi'

/-- On a non-NOP head, `optGo` produces a nonempty list whose head is either
the original head instruction or a fused `MOVE`. -/
theorem optGo_head (x : UDMLInstruction) (r m : List UDMLInstruction)
    (hx : x.opcode ≠ UDMLOpcode.NOP) (hm : optGo (x :: r) = some m) :
    ∃ h t, m = h :: t ∧ (h = x ∨ h.opcode = UDMLOpcode.MOVE) := by
  cases r with
  | nil =>
    simp only [optGo, if_neg hx, Option.some.injEq] at hm
    exact ⟨x, [], hm.symm, Or.inl rfl⟩
  | cons y t =>
    by_cases hf : x.opcode = UDMLOpcode.LOAD ∧ y.opcode = UDMLOpcode.STORE
    · rcases hxo : x.operands with _ | ⟨a, ra⟩
      · simp [optGo, if_neg hx, hf, hxo] at hm
      · rcases hyo : y.operands with _ | ⟨b, rb⟩
        · simp [optGo, if_neg hx, hf, hxo, hyo] at hm
        · rw [optGo, if_neg hx, if_pos hf, hxo, hyo] at hm
          simp only [Option.map_eq_some'] at hm
          obtain ⟨t', _, rfl⟩ := hm
          exact ⟨mkMove x a b, t', rfl, Or.inr rfl⟩
    · rw [optGo, if_neg hx, if_neg hf] at hm
      simp only [Option.map_eq_some'] at hm
      obtain ⟨t', _, rfl⟩ := hm
      exact ⟨x, t', rfl, Or.inl rfl⟩

/-- Prepending an instruction that is not a `LOAD` preserves `noLS`. -/
theorem noLS_cons_of_not_load (x : UDMLInstruction) (t : List UDMLInstruction)
    (hx : x.opcode ≠ UDMLOpcode.LOAD) (ht : noLS t) : noLS (x :: t) := by
  cases t with
  | nil => trivial
  | cons y t' => exact ⟨fun hc => hx hc.1, ht⟩

/-- On NOP-free input, the output of `optGo` has no `LOAD` instruction
immediately followed by a `STORE` instruction. -/
theorem optGo_noLS :
    ∀ l, (∀ i ∈ l, i.opcode ≠ UDMLOpcode.NOP) →
      ∀ m, optGo l = some m → noLS m := by
  refine ind2 ?_ ?_ ?_
  · intro _ m hm
    simp only [optGo, Option.some.injEq] at hm
    subst hm
    trivial
  · intro x hl m hm
    have hx : x.opcode ≠ UDMLOpcode.NOP := hl x (List.mem_singleton.mpr rfl)
    simp only [optGo, if_neg hx, Option.some.injEq] at hm
    subst hm
    trivial
  · intro x y t iht ihyt hl m hm
    have hx : x.opcode ≠ UDMLOpcode.NOP := hl x (by simp)
    have hy : y.opcode ≠ UDMLOpcode.NOP := hl y (by simp)
    by_cases hf : x.opcode = UDMLOpcode.LOAD ∧ y.opcode = UDMLOpcode.STORE
    · rcases hxo : x.operands with _ | ⟨a, ra⟩
      · simp [optGo, if_neg hx, hf, hxo] at hm
      · rcases hyo : y.operands with _ | ⟨b, rb⟩
        · simp [optGo, if_neg hx, hf, hxo, hyo] at hm
        · rw [optGo, if_neg hx, if_pos hf, hxo, hyo] at hm
          simp only [Option.map_eq_some'] at hm
          obtain ⟨t', ht', rfl⟩ := hm
          have htail : noLS t' := iht (fun i hi => hl i (by simp [hi])) t' ht'
          exact noLS_cons_of_not_load _ _ (by simp [mkMove]) htail
    · rw [optGo, if_neg hx, if_neg hf] at hm
      simp only [Option.map_eq_some'] at hm
      obtain ⟨t', ht', rfl⟩ := hm
      have htail : noLS t' := ihyt (fun i hi => hl i (by simp [hi])) t' ht'
      by_cases hxl : x.opcode = UDMLOpcode.LOAD
      · obtain ⟨h, t'', rfl, hh⟩ := optGo_head y t t' hy ht'
        have hys : y.opcode ≠ UDMLOpcode.STORE := fun hys => hf ⟨hxl, hys⟩
        have hhs : h.opcode ≠ UDMLOpcode.STORE := by
          rcases hh with rfl | hmv
          · exact hys
          · rw [hmv]; simp
        exact ⟨fun hc => hhs hc.2, htail⟩
      · exact noLS_cons_of_not_load _ _ hxl htail

/-- A NOP-free instruction list with no adjacent LOAD/STORE pair is a fixed
point of `optGo`. -/
theorem optGo_fixpoint :
    ∀ l, (∀ i ∈ l, i.opcode ≠ UDMLOpcode.NOP) → noLS l → optGo l = some l := by
  refine ind2 ?_ ?_ ?_
  · intro _ _
    rfl
  · intro x hl _
    simp [optGo, if_neg (hl x (List.mem_singleton.mpr rfl))]
  · intro x y t _ ihyt hl hLS
    have hx : x.opcode ≠ UDMLOpcode.NOP := hl x (by simp)
    obtain ⟨hno, hrest⟩ : ¬(x.opcode = UDMLOpcode.LOAD ∧ y.opcode = UDMLOpcode.STORE) ∧
        noLS (y :: t) := hLS
    rw [optGo, if_neg hx, if_neg hno, ihyt (fun i hi => hl i (by simp [hi])) hrest]
    rfl

/-- Totality: `optGo` succeeds whenever every `LOAD` and `STORE` instruction carries at
least one operand. -/
theorem optGo_isSome :
    ∀ l, (∀ i ∈ l, (i.opcode = UDMLOpcode.LOAD ∨ i.opcode = UDMLOpcode.STORE) →
      i.operands ≠ []) → (optGo l).isSome = true := by
  refine ind2 ?_ ?_ ?_
  · intro _
    rfl
  · intro x _
    by_cases hx : x.opcode = UDMLOpcode.NOP
    · simp [optGo, if_pos hx]
    · simp [optGo, if_neg hx]
  · intro x y t iht ihyt hl
    by_cases hx : x.opcode = UDMLOpcode.NOP
    · rw [optGo, if_pos hx]
      exact ihyt (fun i hi h => hl i (by simp [hi]) h)
    · by_cases hf : x.opcode = UDMLOpcode.LOAD ∧ y.opcode = UDMLOpcode.STORE
      · have hxo : x.operands ≠ [] := hl x (by simp) (Or.inl hf.1)
        have hyo : y.operands ≠ [] := hl y (by simp) (Or.inr hf.2)
        rcases hxl : x.operands with _ | ⟨a, ra⟩
        · exact absurd hxl hxo
        · rcases hyl : y.operands with _ | ⟨b, rb⟩
          · exact absurd hyl hyo
          · rw [optGo, if_neg hx, if_pos hf, hxl, hyl]
            have := iht (fun i hi h => hl i (by simp [hi]) h)
            obtain ⟨t', ht'⟩ := Option.isSome_iff_exists.mp this
            rw [ht']
            rfl
      · rw [optGo, if_neg hx, if_neg hf]
        have := ihyt (fun i hi h => hl i (by simp [hi]) h)
        obtain ⟨t', ht'⟩ := Option.isSome_iff_exists.mp this
        rw [ht']
        rfl

/-- The running sum of `_calculate_cyclomatic_complexity` counts the
decision-point instructions. -/
theorem foldl_decision_count :
    ∀ (l : List UDMLInstruction) (n : Nat),
      l.foldl
        (fun acc inst =>
          if inst.opcode ∈ [UDMLOpcode.JZ, UDMLOpcode.JNZ, UDMLOpcode.CALL] then acc + 1
          else acc) n =
      n + l.countP
        (fun inst =>
          decide (inst.opcode ∈ [UDMLOpcode.JZ, UDMLOpcode.JNZ, UDMLOpcode.CALL])) := by
  intro l
  induction l with
  | nil => intro n; simp
  | cons i t ih =>
    intro n
    simp only [List.foldl_cons, List.countP_cons]
    by_cases hi : i.opcode ∈ [UDMLOpcode.JZ, UDMLOpcode.JNZ, UDMLOpcode.CALL]
    · rw [if_pos hi, ih]
      simp [hi]
      omega
    · rw [if_neg hi, ih]
      simp [hi]

/-- The accumulator form of `_calculate_nesting_depth` computes the running
maximum described by the spec, relative to any prior maximum at least the
current counter value. -/
theorem nestingGo_eq_spec :
    ∀ (l : List UDMLInstruction) (cur maxD : Nat), cur ≤ maxD →
      nestingGo l cur maxD = max maxD (specMaxDepth l cur) := by
  intro l
  induction l with
  | nil =>
    intro cur maxD _
    simp [nestingGo, specMaxDepth]
  | cons i t ih =>
    intro cur maxD h
    by_cases hc : i.opcode = UDMLOpcode.CALL
    · rw [nestingGo, if_pos hc, ih (cur + 1) (max maxD (cur + 1)) (le_max_right _ _)]
      simp only [specMaxDepth, if_pos hc]
      rw [max_assoc]
    · by_cases hr : i.opcode = UDMLOpcode.RET
      · rw [nestingGo, if_neg hc, if_pos hr,
            ih (cur - 1) maxD (le_trans (Nat.sub_le _ _) h)]
        simp only [specMaxDepth, if_neg hc, if_pos hr]
        rw [← max_assoc, max_eq_left (le_trans (Nat.sub_le _ _) h)]
      · rw [nestingGo, if_neg hc, if_neg hr, ih cur maxD h]
        simp only [specMaxDepth, if_neg hc, if_neg hr]
        rw [← max_assoc, max_eq_left h]

/-! Claim theorems. -/

/-- C6: a Program whose instructions are a `LOAD` with first operand `a`
immediately followed by a `STORE` with first operand `b` optimizes to exactly
one `MOVE [a, b]` instruction keeping the LOAD's `address` and
`source_vendor`, with `source_instruction = "OPTIMIZED"`,
`metadata = {optimized: true}` and `comment = "Combined LOAD+STORE"`; both
inputs are consumed. -/
theorem optimize_fuses_adjacent_load_store (name sv : String)
    (gv : List (String × MetaVal)) (fns : List (List (String × MetaVal)))
    (md : List (String × MetaVal)) (i1 i2 : UDMLInstruction) (a b : String)
    (r1 r2 : List String) (h1 : i1.opcode = UDMLOpcode.LOAD)
    (h2 : i2.opcode = UDMLOpcode.STORE) (h3 : i1.operands = a :: r1)
    (h4 : i2.operands = b :: r2) :
    optimize ⟨name, sv, [i1, i2], gv, fns, md⟩ =
      some ⟨name, sv,
        [⟨UDMLOpcode.MOVE, [a, b], i1.source_vendor, "OPTIMIZED", i1.address,
          [("optimized", MetaVal.bool true)], some "Combined LOAD+STORE"⟩],
        gv, fns, md⟩ := by
  simp [optimize, optGo, h1, h2, h3, h4, mkMove]

/-- Closed instantiation of the C6 fusion theorem on a concrete two-element
program. -/
theorem optimize_fuses_adjacent_load_store_witness :
    optimize ⟨"p", "siemens", [bareInst .LOAD ["a"] 0, bareInst .STORE ["b"] 1],
        [], [], []⟩ =
      some ⟨"p", "siemens",
        [⟨UDMLOpcode.MOVE, ["a", "b"], (bareInst .LOAD ["a"] 0).source_vendor,
          "OPTIMIZED", (bareInst .LOAD ["a"] 0).address,
          [("optimized", MetaVal.bool true)], some "Combined LOAD+STORE"⟩],
        [], [], []⟩ :=
  optimize_fuses_adjacent_load_store "p" "siemens" [] [] []
    (bareInst .LOAD ["a"] 0) (bareInst .STORE ["b"] 1) "a" "b" [] []
    rfl rfl rfl rfl

/-- C7: fusion adjacency is measured on the original instruction list: on
`[LOAD a, NOP, STORE b]` the NOP is dropped but no fusion occurs, yielding
`[LOAD a, STORE b]`. -/
theorem optimize_nop_blocks_fusion (name sv : String)
    (gv : List (String × MetaVal)) (fns : List (List (String × MetaVal)))
    (md : List (String × MetaVal)) (i1 i2 i3 : UDMLInstruction)
    (h1 : i1.opcode = UDMLOpcode.LOAD) (h2 : i2.opcode = UDMLOpcode.NOP)
    (h3 : i3.opcode = UDMLOpcode.STORE) :
    optimize ⟨name, sv, [i1, i2, i3], gv, fns, md⟩ =
      some ⟨name, sv, [i1, i3], gv, fns, md⟩ := by
  simp [optimize, optGo, h1, h2, h3]

/-- Closed instantiation of the C7 non-fusion theorem on the concrete program
`[LOAD a, NOP, STORE b]`. -/
theorem optimize_nop_blocks_fusion_witness :
    optimize ⟨"p", "siemens",
        [bareInst .LOAD ["a"] 0, bareInst .NOP [] 1, bareInst .STORE ["b"] 2],
        [], [], []⟩ =
      some ⟨"p", "siemens", [bareInst .LOAD ["a"] 0, bareInst .STORE ["b"] 2],
        [], [], []⟩ :=
  optimize_nop_blocks_fusion "p" "siemens" [] [] []
    (bareInst .LOAD ["a"] 0) (bareInst .NOP [] 1) (bareInst .STORE ["b"] 2)
    rfl rfl rfl

/-- C8: `analyze_complexity` reports cyclomatic complexity equal to one plus
the number of `JZ`, `JNZ` and `CALL` instructions; in particular a program
with exactly two `CALL`s, one `JZ` and no other decision instructions has
cyclomatic complexity 4. -/
theorem cyclomatic_complexity_spec :
    (∀ P : UDMLProgram,
      (analyze_complexity P).cyclomatic_complexity =
        1 + P.instructions.countP
          (fun inst =>
            decide (inst.opcode ∈ [UDMLOpcode.JZ, UDMLOpcode.JNZ, UDMLOpcode.CALL]))) ∧
    (analyze_complexity progTwoCallsOneJz).cyclomatic_complexity = 4 := by
  constructor
  · intro P
    simp only [analyze_complexity, calculate_cyclomatic_complexity,
      foldl_decision_count]
    omega
  · decide

/-- C9: `analyze_complexity` reports the maximum nesting depth as the running
maximum of a counter incremented on `CALL` and decremented (floored at 0) on
`RET` over one left-to-right scan; `[CALL, CALL, RET, CALL, RET, RET]` yields
depth 2. -/
theorem max_nesting_depth_spec :
    (∀ P : UDMLProgram,
      (analyze_complexity P).max_nesting_depth = specMaxDepth P.instructions 0) ∧
    (analyze_complexity progNesting).max_nesting_depth = 2 := by
  constructor
  · intro P
    simp only [analyze_complexity, calculate_nesting_depth]
    rw [nestingGo_eq_spec P.instructions 0 0 (le_refl 0)]
    exact Nat.zero_max _
  · decide

/-- C10: when `optimize` succeeds it changes only the `instructions` field:
`program_name`, `source_vendor`, `global_variables`, `functions` and
`metadata` are carried over unchanged. -/
theorem optimize_frame (P Q : UDMLProgram) (h : optimize P = some Q) :
    Q.program_name = P.program_name ∧ Q.source_vendor = P.source_vendor ∧
    Q.global_variables = P.global_variables ∧ Q.functions = P.functions ∧
    Q.metadata = P.metadata := by
  unfold optimize at h
  cases hg : optGo P.instructions with
  | none => rw [hg] at h; simp at h
  | some l =>
    rw [hg] at h
    simp only [Option.map_some', Option.some.injEq] at h
    rw [← h]
    exact ⟨rfl, rfl, rfl, rfl, rfl⟩

/-- Closed instantiation of the C10 frame theorem on the empty program. -/
theorem optimize_frame_witness :
    optimize progEmpty = some progEmpty ∧
    (progEmpty.program_name = progEmpty.program_name ∧
     progEmpty.source_vendor = progEmpty.source_vendor ∧
     progEmpty.global_variables = progEmpty.global_variables ∧
     progEmpty.functions = progEmpty.functions ∧
     progEmpty.metadata = progEmpty.metadata) :=
  ⟨rfl, optimize_frame progEmpty progEmpty rfl⟩

/-- C1 counterexample: on `[LOAD a, NOP, STORE b]` the first pass drops the
NOP without fusing (the LOAD and STORE are not adjacent in the input), but
the second pass then fuses the now-adjacent pair, so the optimizer is not
idempotent. -/
theorem optimize_not_idempotent :
    ¬((optimize progNopBetween).bind optimize = optimize progNopBetween) := by
  decide

/-- C1 (amended): on a Program whose instructions contain no `NOP`,
`optimize` is idempotent — a first successful pass leaves no NOPs and no
adjacent LOAD/STORE pair, so a second pass is the identity. -/
theorem optimize_idempotent_of_nop_free (P : UDMLProgram)
    (h : ∀ i ∈ P.instructions, i.opcode ≠ UDMLOpcode.NOP) :
    (optimize P).bind optimize = optimize P := by
  unfold optimize
  cases hg : optGo P.instructions with
  | none => rfl
  | some m =>
    have h1 : ∀ i ∈ m, i.opcode ≠ UDMLOpcode.NOP := optGo_ne_nop _ _ hg
    have h2 : noLS m := optGo_noLS _ h _ hg
    have h3 : optGo m = some m := optGo_fixpoint _ h1 h2
    simp [optimize, h3]

/-- Closed instantiation of the amended C1 theorem on the NOP-free program
`[LOAD a, AND x, STORE b]`. -/
theorem optimize_idempotent_of_nop_free_witness :
    (∀ i ∈ progNopFree.instructions, i.opcode ≠ UDMLOpcode.NOP) ∧
    (optimize progNopFree).bind optimize = optimize progNopFree :=
  ⟨by decide, optimize_idempotent_of_nop_free progNopFree (by decide)⟩

/-- C2 counterexample: a structurally valid Program consisting of a `LOAD`
and a `STORE` whose operand lists are empty makes the fusion rule read
`operands[0]`, raising `IndexError` (modelled as `none`). -/
theorem optimize_raises_on_empty_operands :
    optimize progEmptyOperands = none := by
  decide

/-- C2 (amended): `optimize` returns normally on every structurally valid
Program in which each `LOAD` and `STORE` instruction has a nonempty operand
list (`analyze_complexity` is total by construction). -/
theorem optimize_total_of_operands_nonempty (P : UDMLProgram)
    (h : ∀ i ∈ P.instructions,
      (i.opcode = UDMLOpcode.LOAD ∨ i.opcode = UDMLOpcode.STORE) →
        i.operands ≠ []) :
    (optimize P).isSome = true := by
  unfold optimize
  obtain ⟨m, hm⟩ := Option.isSome_iff_exists.mp (optGo_isSome P.instructions h)
  rw [hm]
  rfl

/-- Closed instantiation of the amended C2 theorem on the program
`[LOAD a, NOP, STORE b]`. -/
theorem optimize_total_of_operands_nonempty_witness :
    (∀ i ∈ progNopBetween.instructions,
      (i.opcode = UDMLOpcode.LOAD ∨ i.opcode = UDMLOpcode.STORE) →
        i.operands ≠ []) ∧
    (optimize progNopBetween).isSome = true :=
  ⟨by decide, optimize_total_of_operands_nonempty progNopBetween (by decide)⟩

/-- The negated-mnemonic test hard-coded in `_translate_instruction` agrees,
on every mnemonic actually present in a registered vendor table, with the
per-vendor negated set named by the spec. -/
theorem negation_consistent :
    ∀ p ∈ vendorMappings, ∀ e ∈ p.2,
      ((e.1 ∈ ["AN", "ANI", "XIO"]) ↔ e.1 ∈ negatedMnemonics p.1) := by
  decide

/-- C3: `translate` fails exactly when the lower-cased vendor is not one of
the five registered vendors; the failure is the configuration error and no
partial Program is produced with it. -/
theorem translate_vendor_gate (v : String) (insts : List VendorInstruction) :
    (strLower v ∉ ["siemens", "mitsubishi", "rockwell", "ls", "omron"] →
      translate v insts = Except.error ("Unsupported vendor: " ++ v)) ∧
    ((∃ p, translate v insts = Except.ok p) ↔
      strLower v ∈ ["siemens", "mitsubishi", "rockwell", "ls", "omron"]) := by
  have hkeys : (vendorMappings.lookup (strLower v)).isSome = true ↔
      strLower v ∈ ["siemens", "mitsubishi", "rockwell", "ls", "omron"] := by
    rw [lookup_isSome_iff vendorMappings (strLower v)]
    simp [vendorMappings]
  constructor
  · intro hnot
    cases hl : vendorMappings.lookup (strLower v) with
    | none => simp [translate, hl]
    | some m => exact absurd (hkeys.mp (by rw [hl]; rfl)) hnot
  · constructor
    · rintro ⟨p, hp⟩
      cases hl : vendorMappings.lookup (strLower v) with
      | none => simp [translate, hl] at hp
      | some m => exact hkeys.mp (by rw [hl]; rfl)
    · intro hmem
      obtain ⟨m, hl⟩ := Option.isSome_iff_exists.mp (hkeys.mpr hmem)
      refine ⟨⟨v ++ "_program", v, insts.map (translate_instruction (strLower v) m),
        [], [], translationMetadata⟩, ?_⟩
      simp [translate, hl]

/-- Closed instantiation of the C3 vendor-gate theorem on the unregistered
vendor name `fanuc`. -/
theorem translate_vendor_gate_witness :
    translate "fanuc" [] = Except.error ("Unsupported vendor: " ++ "fanuc") :=
  (translate_vendor_gate "fanuc" []).1 (by decide)

/-- C4: under a registered vendor, an instruction whose mnemonic is not in
the vendor's table never makes `translate` fail; in its place the output
carries an Instruction with opcode `NOP`, empty operands,
`metadata = {warning: "unmapped_instruction"}` and a comment recording the
unknown mnemonic. -/
theorem translate_unmapped_to_nop (v : String)
    (m : List (String × UDMLOpcode)) (inst : VendorInstruction)
    (insts : List VendorInstruction)
    (hv : vendorMappings.lookup (strLower v) = some m)
    (hm : m.lookup inst.mnemonic = none) :
    (∃ p, translate v insts = Except.ok p ∧
      p.instructions = insts.map (translate_instruction (strLower v) m)) ∧
    translate_instruction (strLower v) m inst =
      ⟨UDMLOpcode.NOP, [], strLower v, inst.mnemonic, inst.address,
        [("warning", MetaVal.str "unmapped_instruction")],
        some ("Unknown: " ++ inst.mnemonic)⟩ := by
  constructor
  · refine ⟨⟨v ++ "_program", v, insts.map (translate_instruction (strLower v) m),
      [], [], translationMetadata⟩, ?_, rfl⟩
    simp [translate, hv]
  · simp [translate_instruction, hm]

/-- Closed instantiation of the C4 unmapped-mnemonic theorem: mnemonic `FOO`
under vendor `omron`. -/
theorem translate_unmapped_to_nop_witness :
    (∃ p, translate "omron" [⟨"FOO", ["x"], 7, none⟩] = Except.ok p ∧
      p.instructions = [⟨"FOO", ["x"], 7, none⟩].map
        (translate_instruction (strLower "omron") OMRON_MAPPING)) ∧
    translate_instruction (strLower "omron") OMRON_MAPPING ⟨"FOO", ["x"], 7, none⟩ =
      ⟨UDMLOpcode.NOP, [], strLower "omron", "FOO", 7,
        [("warning", MetaVal.str "unmapped_instruction")],
        some ("Unknown: " ++ "FOO")⟩ :=
  translate_unmapped_to_nop "omron" OMRON_MAPPING ⟨"FOO", ["x"], 7, none⟩
    [⟨"FOO", ["x"], 7, none⟩] (by decide) (by decide)

/-- C5: for a registered vendor and a mnemonic in its table, translating that
single instruction yields exactly one Instruction with the mapped opcode and
the original operands, whose metadata is `{negated: true}` exactly when the
mnemonic is in the vendor's negated set (Siemens `AN`, Mitsubishi `ANI`,
Rockwell `XIO`) and is empty otherwise. -/
theorem translate_mapped_mnemonic (v : String)
    (m : List (String × UDMLOpcode)) (M : String) (op : UDMLOpcode)
    (ops : List String) (addr : Int) (c : Option String)
    (hv : vendorMappings.lookup (strLower v) = some m)
    (hm : m.lookup M = some op) :
    ∃ meta,
      translate v [⟨M, ops, addr, c⟩] =
        Except.ok ⟨v ++ "_program", v, [⟨op, ops, strLower v, M, addr, meta, c⟩],
          [], [], translationMetadata⟩ ∧
      (meta = [("negated", MetaVal.bool true)] ↔ M ∈ negatedMnemonics (strLower v)) ∧
      (M ∉ negatedMnemonics (strLower v) → meta = []) := by
  have hcons := negation_consistent (strLower v, m) (lookup_mem _ _ _ hv)
    (M, op) (lookup_mem _ _ _ hm)
  refine ⟨if M ∈ ["AN", "ANI", "XIO"] then [("negated", MetaVal.bool true)] else [],
    ?_, ?_, ?_⟩
  · simp [translate, hv, translate_instruction, hm]
  · by_cases hM : M ∈ ["AN", "ANI", "XIO"]
    · rw [if_pos hM]
      exact ⟨fun _ => hcons.mp hM, fun _ => rfl⟩
    · rw [if_neg hM]
      constructor
      · intro hcontra
        simp at hcontra
      · intro hneg
        exact absurd (hcons.mpr hneg) hM
  · intro hneg
    exact if_neg (fun hM => hneg (hcons.mp hM))

/-- Closed instantiation of the C5 mapped-mnemonic theorem: the negated
Siemens mnemonic `AN` under the mixed-case vendor name `Siemens`. -/
theorem translate_mapped_mnemonic_witness :
    ∃ meta,
      translate "Siemens" [⟨"AN", ["I0.1"], 2, some "c2"⟩] =
        Except.ok ⟨"Siemens" ++ "_program", "Siemens",
          [⟨UDMLOpcode.AND, ["I0.1"], strLower "Siemens", "AN", 2, meta, some "c2"⟩],
          [], [], translationMetadata⟩ ∧
      (meta = [("negated", MetaVal.bool true)] ↔
        "AN" ∈ negatedMnemonics (strLower "Siemens")) ∧
      ("AN" ∉ negatedMnemonics (strLower "Siemens") → meta = []) :=
  translate_mapped_mnemonic "Siemens" SIEMENS_MAPPING "AN" UDMLOpcode.AND
    ["I0.1"] 2 (some "c2") (by decide) (by decide)

end UDML
